import Mathlib

/-!
Verification of the gesture-driven card navigation engine and the adaptive
text-fit hyphenation engine of the friendsapp repository.

The definitions below are a shallow embedding of the TypeScript source:

* `src/src/lib/hyphenation.ts` — `shouldExcludeWord`, `measureTextWidth`
  (abstracted as an injected measuring capability), `applyGermanHyphenation`;
* `src/unnamed/part_004` (the QuizCard component) — `handleStart`,
  `handleMove`, `handleEnd`, the keyboard handler, the edge-tap click zones,
  `getDragProgress` / `currentScale` / `currentRotation`;
* `src/src/components/QuizApp.tsx` — `nextQuestion`, `prevQuestion`,
  `interpolateColor`, and the deep-link initialization effect.

JavaScript strings are modelled as `List Char`, JS numbers as `ℚ` (UI
geometry) or `ℤ`/`ℕ` (parsed color components and indices).  Fallible
parsing returns `Option`.
-/

namespace FriendsApp

/-! ## JS character classes -/

/-- Character model of the JS regex class `\s` (whitespace): ASCII space,
tab, LF, VT, FF, CR, NBSP and the Unicode space separators. -/
def jsWhitespace (c : Char) : Bool :=
  c.toNat == 32 || (9 ≤ c.toNat && c.toNat ≤ 13) || c.toNat == 0xA0 ||
  c.toNat == 0x1680 || (0x2000 ≤ c.toNat && c.toNat ≤ 0x200A) ||
  c.toNat == 0x2028 || c.toNat == 0x2029 || c.toNat == 0x202F ||
  c.toNat == 0x205F || c.toNat == 0x3000 || c.toNat == 0xFEFF

/-- The regex class `[A-ZÄÖÜ]` used by the all-uppercase exclusion rule. -/
def upperDeChar (c : Char) : Bool :=
  (65 ≤ c.toNat && c.toNat ≤ 90) || c == 'Ä' || c == 'Ö' || c == 'Ü'

/-- Character-wise model of JS `String.prototype.toUpperCase` on the
alphabet relevant to `shouldExcludeWord` (ASCII letters and ä/ö/ü; other
characters are kept as they are). -/
def jsToUpperChar (c : Char) : Char :=
  if 97 ≤ c.toNat && c.toNat ≤ 122 then Char.ofNat (c.toNat - 32)
  else if c == 'ä' then 'Ä'
  else if c == 'ö' then 'Ö'
  else if c == 'ü' then 'Ü'
  else c

/-- The regex class `[\d§$%€&@#]` (digits or currency/symbol characters). -/
def digitOrSymbolChar (c : Char) : Bool :=
  c.isDigit || c == '§' || c == '$' || c == '%' || c == '€' || c == '&' ||
  c == '@' || c == '#'

/-! ## Splitting on `/(\s+)/` preserving separators

`text.split(/(\s+)/)` cuts the string into maximal runs of whitespace and
non-whitespace characters (plus empty strings at the boundaries, which the
word mapper returns unchanged, so they are dropped without loss here). -/

/-- Maximal homogeneous runs (with respect to `jsWhitespace`) of a
character list, in order.  `List.join` of the result restores the input. -/
def splitRuns : List Char → List (List Char)
  | [] => []
  | c :: cs =>
    match splitRuns cs with
    | (d :: r) :: rs =>
      if jsWhitespace c == jsWhitespace d then (c :: d :: r) :: rs
      else [c] :: (d :: r) :: rs
    | _ => [[c]]

/-! ## Hyphenation engine (`src/src/lib/hyphenation.ts`) -/

/-- The options record of `applyGermanHyphenation`.  `bufferPx` is optional
with default 16 (`bufferPx = 16` destructuring default in the source). -/
structure HyphenationOptions where
  containerWidth : ℚ
  fontSize : ℚ
  fontFamily : List Char
  fontWeight : List Char

/-- The optional buffer; modelled as part of the record to keep one options
type.  The source always receives `bufferPx: 16` from its caller. -/
structure HyphenationOptionsExt extends HyphenationOptions where
  bufferPx : Option ℚ

/-- The CSS font string `${fontWeight} ${fontSize}px ${fontFamily}` is
semantically the triple of its components; the measuring capability
receives that triple. -/
structure FontSpec where
  weight : List Char
  size : ℚ
  family : List Char

/-- Font specification assembled by `applyGermanHyphenation`. -/
def fontOf (o : HyphenationOptionsExt) : FontSpec :=
  ⟨o.fontWeight, o.fontSize, o.fontFamily⟩

/-- Available width `containerWidth - bufferPx` (line 53 of hyphenation.ts). -/
def availableWidth (o : HyphenationOptionsExt) : ℚ :=
  o.containerWidth - o.bufferPx.getD 16

/-- Translation of `shouldExcludeWord` (hyphenation.ts lines 17–31):
shorter than 6 characters; all-uppercase per
`word === word.toUpperCase() && /^[A-ZÄÖÜ]+$/.test(word)`; containing a
digit or symbol from `[\d§$%€&@#]`; or already containing a hyphen. -/
def shouldExcludeWord (w : List Char) : Bool :=
  if w.length < 6 then true
  else if (w.map jsToUpperChar == w) && (!w.isEmpty && w.all upperDeChar) then true
  else if w.any digitOrSymbolChar then true
  else if w.contains '-' then true
  else false

/-- The soft hyphen U+00AD inserted between syllables. -/
def softHyphen : Char := Char.ofNat 0xAD

/-- The per-token mapper of `applyGermanHyphenation` (the arrow function on
lines 59–77): whitespace runs pass through, excluded words pass through,
words whose measured width fits within the available width pass through,
and only the rest are split by the hyphenator and joined with U+00AD.
`measure` abstracts `measureTextWidth` and `hyph` abstracts
`hyphenator.hyphenate` (the external `hypher` German-pattern library). -/
def processWord (measure : List Char → FontSpec → ℚ)
    (hyph : List Char → List (List Char))
    (avail : ℚ) (font : FontSpec) (w : List Char) : List Char :=
  if !w.isEmpty && w.all jsWhitespace then w
  else if shouldExcludeWord w then w
  else if measure w font ≤ avail then w
  else List.intercalate [softHyphen] (hyph w)

/-- Translation of `applyGermanHyphenation` (hyphenation.ts lines 48–78):
split on `/(\s+)/` keeping the separators, map each token through the
exclusion / measurement / hyphenation pipeline, and re-join. -/
def applyGermanHyphenation (measure : List Char → FontSpec → ℚ)
    (hyph : List Char → List (List Char))
    (text : List Char) (o : HyphenationOptionsExt) : List Char :=
  ((splitRuns text).map
    (processWord measure hyph (availableWidth o) (fontOf o))).flatten

/-! ## Decimal digits

Printing (template literals `${...}`) and parsing (`parseInt` on the regex
groups) of decimal numerals, with a round-trip lemma. -/

/-- The decimal digit character for `d` (intended for `d < 10`). -/
def digitChar (d : ℕ) : Char := Char.ofNat (48 + d)

/-- Fuel-indexed big-endian decimal digits of `n` (structural recursion so
that concrete instances evaluate in the kernel). -/
def natCharsAux : ℕ → ℕ → List Char
  | 0, _ => []
  | fuel + 1, n =>
    if n < 10 then [digitChar n]
    else natCharsAux fuel (n / 10) ++ [digitChar (n % 10)]

/-- Decimal numeral of a natural number, as JS number-to-string prints a
nonnegative integer. -/
def natToChars (n : ℕ) : List Char := natCharsAux (n + 1) n

/-- Value of a digit run, as `parseInt` computes it on a group of `\d+`. -/
def digitsVal (l : List Char) : ℕ :=
  l.foldl (fun a c => 10 * a + (c.toNat - 48)) 0

/-- The regex class `\d` (ASCII decimal digit). -/
def digitCharB (c : Char) : Bool := 48 ≤ c.toNat && c.toNat ≤ 57

/-! ## The hsl pattern of `interpolateColor`

`QuizApp.tsx` line 297 matches colors against
`/hsl\((\d+),\s*(\d+)%,\s*(\d+)%\)/` — an unanchored search.  The matcher
below scans each start position in order; at one position the greedy
no-backtracking reading is equivalent to the regex because `,` and `%` are
not digits and a digit is not whitespace. -/

/-- Consumes an expected literal prefix, returning the remainder. -/
def stripLit : List Char → List Char → Option (List Char)
  | [], l => some l
  | _ :: _, [] => none
  | a :: p, b :: l => if a == b then stripLit p l else none

/-- Tries to match `hsl\((\d+),\s*(\d+)%,\s*(\d+)%\)` at the head of the
list, returning the three parsed integer groups. -/
def matchHslAt (l : List Char) : Option (ℕ × ℕ × ℕ) :=
  match stripLit "hsl(".data l with
  | none => none
  | some l1 =>
    let d1 := l1.takeWhile digitCharB
    if d1.isEmpty then none else
    match l1.dropWhile digitCharB with
    | ',' :: l3 =>
      let l4 := l3.dropWhile jsWhitespace
      let d2 := l4.takeWhile digitCharB
      if d2.isEmpty then none else
      match stripLit "%,".data (l4.dropWhile digitCharB) with
      | none => none
      | some l6 =>
        let l7 := l6.dropWhile jsWhitespace
        let d3 := l7.takeWhile digitCharB
        if d3.isEmpty then none else
        match stripLit "%)".data (l7.dropWhile digitCharB) with
        | none => none
        | some _ => some (digitsVal d1, digitsVal d2, digitsVal d3)
    | _ => none

/-- First-match semantics of `String.prototype.match` with an unanchored
regex: try each start position from the left. -/
def findHsl : List Char → Option (ℕ × ℕ × ℕ)
  | [] => none
  | c :: cs =>
    match matchHslAt (c :: cs) with
    | some r => some r
    | none => findHsl cs

/-- JS `Math.round`: round half toward positive infinity. -/
def jsRound (x : ℚ) : ℤ := ⌊x + 1 / 2⌋

/-- Decimal rendering of an integer inside a template literal. -/
def intToChars (z : ℤ) : List Char :=
  if z < 0 then '-' :: natToChars z.natAbs else natToChars z.toNat

/-- The output template `hsl(${h}, ${s}%, ${l}%)`. -/
def mkHslOut (h s l : ℤ) : List Char :=
  "hsl(".data ++ intToChars h ++ ", ".data ++ intToChars s ++ "%, ".data ++
    intToChars l ++ "%)".data

/-- The canonical hsl string with natural components, as both the input
format accepted by the pattern and the output format produced by the
template agree on it. -/
def mkHslNat (h s l : ℕ) : List Char :=
  "hsl(".data ++ natToChars h ++ ", ".data ++ natToChars s ++ "%, ".data ++
    natToChars l ++ "%)".data

/-- Normalization of the hue difference onto the shortest arc
(`QuizApp.tsx` lines 312–317). -/
def normalizeHueDiff (d : ℤ) : ℤ :=
  if 180 < d then d - 360 else if d < -180 then d + 360 else d

/-- The two sequential wrap statements `if (h < 0) h += 360;`
`if (h >= 360) h -= 360;` (`QuizApp.tsx` lines 320–322). -/
def hueWrap (h : ℚ) : ℚ :=
  if 360 ≤ (if h < 0 then h + 360 else h) then (if h < 0 then h + 360 else h) - 360
  else (if h < 0 then h + 360 else h)

/-- Translation of `interpolateColor` (`QuizApp.tsx` lines 296–328): parse
both colors against the hsl pattern (returning the first color on any
mismatch), normalize the hue difference onto the shortest arc, linearly
interpolate, wrap the hue back into range, round, and re-render through the
template `hsl(${Math.round(h)}, ${s}%, ${l}%)`. -/
def interpolateColor (color1 color2 : String) (progress : ℚ) : String :=
  match findHsl color1.data, findHsl color2.data with
  | some (h1, s1, l1), some (h2, s2, l2) =>
    String.mk (mkHslOut
      (jsRound (hueWrap ((h1 : ℚ) +
        ((normalizeHueDiff ((h2 : ℤ) - (h1 : ℤ)) : ℤ) : ℚ) * progress)))
      (jsRound ((s1 : ℚ) + ((s2 : ℚ) - (s1 : ℚ)) * progress))
      (jsRound ((l1 : ℚ) + ((l2 : ℚ) - (l1 : ℚ)) * progress)))
  | _, _ => color1

/-- A color string is well formed when it is exactly the canonical
rendering of components with the hue in `[0, 360)`. -/
def WellFormedHsl (c : String) (h s l : ℕ) : Prop :=
  c.data = mkHslNat h s l ∧ h < 360

/-! ## Arithmetic facts about the interpolation -/

/-- The integer counterpart of `hueWrap`. -/
def intHueWrap (x : ℤ) : ℤ :=
  if 360 ≤ (if x < 0 then x + 360 else x) then (if x < 0 then x + 360 else x) - 360
  else (if x < 0 then x + 360 else x)

/-! ## Navigation (QuizApp.tsx and the QuizCard component, part_004)

`AppState` models the QuizApp-side state touched by navigation;
`CardState` models the QuizCard-side drag/transition state
(lines 30–33 of part_004). -/

structure Question where
  question : String
  questionEn : String
  category : String
deriving DecidableEq

structure AppState where
  questions : List Question
  currentIndex : ℕ
  dragProgress : ℚ
  targetCategory : String
  initialIndexApplied : Bool
deriving DecidableEq

/-- Translation of `nextQuestion` (QuizApp.tsx lines 211–217). -/
def nextQuestion (s : AppState) : AppState :=
  if s.currentIndex < s.questions.length - 1 then
    { s with
      currentIndex := s.currentIndex + 1
      dragProgress := 0
      targetCategory := "" }
  else s

/-- Translation of `prevQuestion` (QuizApp.tsx lines 219–225). -/
def prevQuestion (s : AppState) : AppState :=
  if 0 < s.currentIndex then
    { s with
      currentIndex := s.currentIndex - 1
      dragProgress := 0
      targetCategory := "" }
  else s

/-- A navigation trigger fed to the state machine. -/
inductive NavMove where
  | next
  | prev
deriving DecidableEq

def applyMove (s : AppState) : NavMove → AppState
  | .next => nextQuestion s
  | .prev => prevQuestion s

def applyMoves (s : AppState) (ms : List NavMove) : AppState :=
  ms.foldl applyMove s

/-- Adjacency prop `nextQuestion={currentIndex < questions.length - 1 ? ... : null}`
(QuizApp.tsx line 487): whether a next record exists. -/
def hasNext (s : AppState) : Bool :=
  decide (s.currentIndex < s.questions.length - 1)

/-- Adjacency prop `prevQuestion={currentIndex > 0 ? ... : null}` (QuizApp.tsx line 488). -/
def hasPrev (s : AppState) : Bool :=
  decide (0 < s.currentIndex)

/-- Direction values of `transitionDirection: 'left' | 'right' | null`. -/
inductive SwipeDir where
  | left
  | right
deriving DecidableEq

structure CardState where
  isDragging : Bool
  dragOffset : ℚ
  isTransitioning : Bool
  transitionDirection : Option SwipeDir
  startX : ℚ
deriving DecidableEq

/-- Threshold `const dragThreshold = 100` (part_004 line 47). -/
def dragThreshold : ℚ := 100

/-- Translation of `handleStart` (part_004 lines 628–632).  Note: it has no
`isTransitioning` guard — it unconditionally begins a drag. -/
def handleStart (s : CardState) (clientX : ℚ) : CardState :=
  { s with isDragging := true, startX := clientX, dragOffset := 0 }

/-- Translation of `handleMove` (part_004 lines 634–649, state part). -/
def handleMove (s : CardState) (clientX : ℚ) : CardState :=
  if s.isDragging then { s with dragOffset := clientX - s.startX } else s

/-- Translation of `handleEnd` (part_004 lines 651–714): the immediate
state update together with the commit scheduled by `setTimeout`
(`onSwipeLeft` / `onSwipeRight`), if any.  The snap-back branch is reported
with its immediate state (`isTransitioning := true`, dragging cleared). -/
def handleEnd (s : CardState) (hasNextQ hasPrevQ : Bool) (slideDistance : ℚ) :
    CardState × Option SwipeDir :=
  if s.isDragging then
    if dragThreshold < |s.dragOffset| then
      if s.dragOffset < 0 ∧ hasNextQ = true then
        ({ s with
          isTransitioning := true
          transitionDirection := some .left
          isDragging := false
          dragOffset := -slideDistance }, some .left)
      else if 0 < s.dragOffset ∧ hasPrevQ = true then
        ({ s with
          isTransitioning := true
          transitionDirection := some .right
          isDragging := false
          dragOffset := slideDistance }, some .right)
      else ({ s with isTransitioning := true, isDragging := false }, none)
    else ({ s with isTransitioning := true, isDragging := false }, none)
  else (s, none)

/-- The settled card state after the asynchronous tail of a release: the
snap-back timeouts (`setDragOffset(0)`, `setIsTransitioning(false)`,
part_004 lines 703–713) or, after a committed index change, the
`useLayoutEffect` reset (part_004 lines 218–227). -/
def settleCard (c : CardState) : CardState :=
  { c with
    dragOffset := 0
    isTransitioning := false
    transitionDirection := none }

/-- Full settled outcome of a drag release: `handleEnd` with the adjacency
the QuizCard receives from QuizApp, followed by the scheduled
`onSwipeLeft`/`onSwipeRight` (= `nextQuestion`/`prevQuestion`, QuizApp.tsx
lines 495–496) and the post-commit reset. -/
def releaseSettled (app : AppState) (card : CardState) (slideDistance : ℚ) :
    AppState × CardState :=
  match handleEnd card (hasNext app) (hasPrev app) slideDistance with
  | (c, some .left) => (nextQuestion app, settleCard c)
  | (c, some .right) => (prevQuestion app, settleCard c)
  | (c, none) => (app, settleCard c)

inductive Key where
  | arrowLeft
  | arrowRight
  | other
deriving DecidableEq

/-- Translation of the keyboard handler (part_004 lines 102–138): guarded
by `if (isTransitioning) return`, ArrowLeft commits toward the previous
record, ArrowRight toward the next. -/
def handleKeyDown (s : CardState) (key : Key) (hasPrevQ hasNextQ : Bool)
    (slideDistance : ℚ) : CardState × Option SwipeDir :=
  if s.isTransitioning then (s, none)
  else
    match key with
    | .arrowLeft =>
      if hasPrevQ then
        ({ s with
          isTransitioning := true
          transitionDirection := some .right
          dragOffset := slideDistance }, some .right)
      else (s, none)
    | .arrowRight =>
      if hasNextQ then
        ({ s with
          isTransitioning := true
          transitionDirection := some .left
          dragOffset := -slideDistance }, some .left)
      else (s, none)
    | .other => (s, none)

/-- Translation of the left edge click zone (part_004 lines 992–1039): the
zone only exists when a previous record does (`{prevQuestion && ...}`), and
its handler is guarded by `if (!isTransitioning)`. -/
def leftEdgeClick (s : CardState) (hasPrevQ : Bool) (slideDistance : ℚ) :
    CardState × Option SwipeDir :=
  if hasPrevQ = false then (s, none)
  else if s.isTransitioning then (s, none)
  else ({ s with
    isTransitioning := true
    transitionDirection := some .right
    dragOffset := slideDistance }, some .right)

/-- Translation of the right edge click zone (part_004 lines 1042–1089). -/
def rightEdgeClick (s : CardState) (hasNextQ : Bool) (slideDistance : ℚ) :
    CardState × Option SwipeDir :=
  if hasNextQ = false then (s, none)
  else if s.isTransitioning then (s, none)
  else ({ s with
    isTransitioning := true
    transitionDirection := some .left
    dragOffset := -slideDistance }, some .left)

/-! ## Slide transforms (part_004 lines 748–767) -/

/-- Translation of `getDragProgress` (part_004 lines 751–755):
`Math.min(Math.abs(dragOffset) / 300, 1)` — the container width is read
but the reference width is the constant 300. -/
def getDragProgress (dragOffset : ℚ) : ℚ :=
  min (|dragOffset| / 300) 1

/-- Sign `const direction = totalOffset < 0 ? -1 : 1` (part_004 line 759). -/
def dragDirection (totalOffset : ℚ) : ℤ :=
  if totalOffset < 0 then -1 else 1

/-- Scale `const currentScale = 1 - (progress * 0.2)` (part_004 line 763). -/
def currentScale (dragOffset : ℚ) : ℚ :=
  1 - getDragProgress dragOffset * 0.2

/-- Rotation `const currentRotation = (totalOffset / 300) * 5` (part_004 line 764).
Unlike the progress, this is not clamped. -/
def currentRotation (dragOffset : ℚ) : ℚ :=
  dragOffset / 300 * 5

/-! ## Deep-link initialization (QuizApp.tsx lines 241–276) -/

/-- Model of JS `parseInt(str, 10)`: skip leading whitespace, read an
optional sign and a leading digit run; NaN (here `none`) when no digit is
found. -/
def parseIntJS (str : String) : Option ℤ :=
  let body := str.data.dropWhile jsWhitespace
  match body with
  | '-' :: rest =>
    let d := rest.takeWhile digitCharB
    if d.isEmpty then none else some (-(digitsVal d : ℤ))
  | '+' :: rest =>
    let d := rest.takeWhile digitCharB
    if d.isEmpty then none else some ((digitsVal d : ℤ))
  | rest =>
    let d := rest.takeWhile digitCharB
    if d.isEmpty then none else some ((digitsVal d : ℤ))

/-- Model of JS `String.prototype.trim`. -/
def trimJS (str : String) : String :=
  String.mk (((str.data.dropWhile jsWhitespace).reverse.dropWhile
    jsWhitespace).reverse)

/-- Translation of the deep-link effect (QuizApp.tsx lines 241–276).
`qParam = none` models `params.get('q') === null`; the source treats the
empty string the same way (`if (!qParam)`).  A parsed numeric value is
used when in range, otherwise the first question whose trimmed text equals
the trimmed parameter; when neither matches, only the applied flag is
set. -/
def applyDeepLink (s : AppState) (qParam : Option String) : AppState :=
  if s.initialIndexApplied then s
  else if s.questions.length = 0 then s
  else
    match qParam with
    | none => { s with initialIndexApplied := true }
    | some qp =>
      if qp = "" then { s with initialIndexApplied := true }
      else
        let len : ℤ := (s.questions.length : ℤ)
        let textIdx : ℤ :=
          match s.questions.findIdx? (fun q => trimJS q.question == trimJS qp) with
          | some i => (i : ℤ)
          | none => -1
        let targetIndex : ℤ :=
          match parseIntJS qp with
          | some n => if 0 ≤ n ∧ n < len then n else textIdx
          | none => textIdx
        if 0 ≤ targetIndex ∧ targetIndex < len then
          { s with
            currentIndex := targetIndex.toNat
            initialIndexApplied := true }
        else { s with initialIndexApplied := true }

/-! ## Sample capabilities for concrete instances -/

/-- The measuring capability when no canvas 2D context exists:
`measureTextWidth` returns 0 (hyphenation.ts line 39). -/
def zeroMeasure : List Char → FontSpec → ℚ := fun _ _ => 0

/-- A hyphenator that finds no break points. -/
def idHyph : List Char → List (List Char) := fun w => [w]

/-- Modelled from the spec: the external dictionary/pattern-based German
syllable splitter (npm packages `hypher` and `hyphenation.de`, which are
dependencies, not sources of this repository).  Section 8 of the spec fixes
that "Selbstverwirklichung" is split into syllables when it does not fit;
other words are treated as unsplittable here. -/
def hypherDe (w : List Char) : List (List Char) :=
  if w = "Selbstverwirklichung".data then
    ["Selbst".data, "ver".data, "wirk".data, "li".data, "chung".data]
  else [w]

/-- Options with a 300px container and no buffer. -/
def fitOptions : HyphenationOptionsExt :=
  ⟨⟨300, 16, "Factor A".data, "bold".data⟩, some 0⟩

/-- Options with a zero-width container and the default 16px buffer, making
the available width negative. -/
def zeroWidthOptions : HyphenationOptionsExt :=
  ⟨⟨0, 16, "Factor A".data, "bold".data⟩, none⟩

/-! ## Theorems -/

theorem splitRuns_ne_nil (l : List Char) : ∀ r ∈ splitRuns l, r ≠ [] := by
  induction l with
  | nil => intro r hr; simp [splitRuns] at hr
  | cons c cs ih =>
    intro r hr
    simp only [splitRuns] at hr
    rcases h : splitRuns cs with _ | ⟨_ | ⟨d, t⟩, rs⟩ <;> rw [h] at hr
    · simp at hr; simp [hr]
    · simp at hr; simp [hr]
    · dsimp only at hr
      by_cases hc : jsWhitespace c == jsWhitespace d
      · rw [if_pos hc] at hr
        rcases List.mem_cons.1 hr with h1 | h1
        · simp [h1]
        · exact ih r (h ▸ List.mem_cons_of_mem _ h1)
      · rw [if_neg hc] at hr
        rcases List.mem_cons.1 hr with h1 | h1
        · simp [h1]
        · exact ih r (h ▸ h1)

theorem join_splitRuns (l : List Char) : (splitRuns l).flatten = l := by
  induction l with
  | nil => rfl
  | cons c cs ih =>
    simp only [splitRuns]
    rcases h : splitRuns cs with _ | ⟨_ | ⟨d, t⟩, rs⟩
    · rw [h] at ih
      simp at ih
      simp [ih]
    · exact absurd rfl (splitRuns_ne_nil cs [] (h ▸ List.mem_cons_self _ _))
    · rw [h] at ih
      dsimp only
      by_cases hc : jsWhitespace c == jsWhitespace d
      · rw [if_pos hc]
        simp only [List.flatten_cons] at ih ⊢
        simp [← ih]
      · rw [if_neg hc]
        simp only [List.flatten_cons] at ih ⊢
        simp [← ih]

/-- A word that is excluded, or whose measured width fits, maps to itself. -/
theorem processWord_eq_self (measure : List Char → FontSpec → ℚ)
    (hyph : List Char → List (List Char)) (avail : ℚ) (font : FontSpec)
    (w : List Char)
    (h : (!w.isEmpty && w.all jsWhitespace) = true ∨
      shouldExcludeWord w = true ∨ measure w font ≤ avail) :
    processWord measure hyph avail font w = w := by
  unfold processWord
  rcases h with h | h | h
  · simp [h]
  · split
    · rfl
    · simp [h]
  · split
    · rfl
    · split
      · rfl
      · simp [h]

/-- If every token of the split is a whitespace run, an excluded word, or a
word that fits, the whole function is the identity on the text. -/
theorem applyGermanHyphenation_eq_self (measure : List Char → FontSpec → ℚ)
    (hyph : List Char → List (List Char)) (o : HyphenationOptionsExt)
    (text : List Char)
    (h : ∀ w ∈ splitRuns text, (!w.isEmpty && w.all jsWhitespace) = true ∨
      shouldExcludeWord w = true ∨ measure w (fontOf o) ≤ availableWidth o) :
    applyGermanHyphenation measure hyph text o = text := by
  unfold applyGermanHyphenation
  have hmap : ∀ rs : List (List Char),
      (∀ w ∈ rs, (!w.isEmpty && w.all jsWhitespace) = true ∨
        shouldExcludeWord w = true ∨ measure w (fontOf o) ≤ availableWidth o) →
      rs.map (processWord measure hyph (availableWidth o) (fontOf o)) = rs := by
    intro rs
    induction rs with
    | nil => intro _; rfl
    | cons a t iht =>
      intro hrs
      simp only [List.map_cons]
      rw [processWord_eq_self _ _ _ _ a (hrs a (List.mem_cons_self _ _)),
        iht (fun w hw => hrs w (List.mem_cons_of_mem _ hw))]
  rw [hmap (splitRuns text) h, join_splitRuns]

theorem digitsVal_append_digit (l : List Char) (c : Char) :
    digitsVal (l ++ [c]) = 10 * digitsVal l + (c.toNat - 48) := by
  unfold digitsVal
  rw [List.foldl_append]
  rfl

theorem digitsVal_go (a : ℕ) (l : List Char) :
    l.foldl (fun a c => 10 * a + (c.toNat - 48)) a =
      a * 10 ^ l.length + digitsVal l := by
  induction l generalizing a with
  | nil => simp [digitsVal]
  | cons c t ih =>
    simp only [List.foldl_cons, digitsVal]
    rw [ih, ih (10 * 0 + (c.toNat - 48))]
    simp only [List.length_cons, pow_succ]
    ring

theorem natCharsAux_spec (fuel : ℕ) :
    ∀ n < fuel, digitsVal (natCharsAux fuel n) = n ∧
      (∀ c ∈ natCharsAux fuel n, digitCharB c = true) ∧
      natCharsAux fuel n ≠ [] := by
  induction fuel with
  | zero => intro n hn; omega
  | succ fuel ih =>
    intro n _
    by_cases h10 : n < 10
    · have hd : ∀ d < 10, digitsVal [digitChar d] = d ∧
          digitCharB (digitChar d) = true := by decide
      simp only [natCharsAux, if_pos h10]
      refine ⟨(hd n h10).1, ?_, by simp⟩
      intro c hc
      rw [List.mem_singleton] at hc
      rw [hc]
      exact (hd n h10).2
    · have hlt : n / 10 < fuel := by omega
      obtain ⟨ihv, ihd, _⟩ := ih (n / 10) hlt
      have hm : ∀ d < 10, (digitChar d).toNat - 48 = d ∧
          digitCharB (digitChar d) = true := by decide
      have hmod := hm (n % 10) (Nat.mod_lt _ (by norm_num))
      simp only [natCharsAux, if_neg h10]
      refine ⟨?_, ?_, by simp⟩
      · rw [digitsVal_append_digit, ihv, hmod.1]
        omega
      · intro c hc
        rcases List.mem_append.1 hc with hc | hc
        · exact ihd c hc
        · rw [List.mem_singleton] at hc
          rw [hc]
          exact hmod.2

theorem digitsVal_natToChars (n : ℕ) : digitsVal (natToChars n) = n :=
  (natCharsAux_spec (n + 1) n (Nat.lt_succ_self n)).1

theorem natToChars_all_digits (n : ℕ) :
    ∀ c ∈ natToChars n, digitCharB c = true :=
  (natCharsAux_spec (n + 1) n (Nat.lt_succ_self n)).2.1

theorem natToChars_ne_nil (n : ℕ) : natToChars n ≠ [] :=
  (natCharsAux_spec (n + 1) n (Nat.lt_succ_self n)).2.2

theorem stripLit_append (p l : List Char) : stripLit p (p ++ l) = some l := by
  induction p with
  | nil => rfl
  | cons a t ih => simp [stripLit, ih]

theorem takeWhile_append_stop (p : Char → Bool) (a b : List Char)
    (ha : ∀ c ∈ a, p c = true) (hb : ∀ c, b.head? = some c → p c = false) :
    (a ++ b).takeWhile p = a ∧ (a ++ b).dropWhile p = b := by
  induction a with
  | nil =>
    cases b with
    | nil => exact ⟨rfl, rfl⟩
    | cons c bt =>
      have hc := hb c rfl
      simp [List.takeWhile_cons, List.dropWhile_cons, hc]
  | cons x xs ih =>
    have hx : p x = true := ha x (List.mem_cons_self _ _)
    have := ih (fun c hc => ha c (List.mem_cons_of_mem _ hc))
    simp [List.takeWhile_cons, List.dropWhile_cons, hx, this.1, this.2]

theorem digitCharB_not_ws (c : Char) (h : digitCharB c = true) :
    jsWhitespace c = false := by
  have h' : 48 ≤ c.toNat ∧ c.toNat ≤ 57 := by
    simpa [digitCharB] using h
  rw [Bool.eq_false_iff]
  intro hws
  simp only [jsWhitespace, Bool.or_eq_true, Bool.and_eq_true, beq_iff_eq,
    decide_eq_true_eq] at hws
  omega

theorem natToChars_not_isEmpty (n : ℕ) : (natToChars n).isEmpty = false := by
  cases hh : natToChars n with
  | nil => exact absurd hh (natToChars_ne_nil n)
  | cons c t => rfl

theorem matchHslAt_mkHslNat (h s l : ℕ) :
    matchHslAt (mkHslNat h s l) = some (h, s, l) := by
  have hshape : mkHslNat h s l = "hsl(".data ++
      (natToChars h ++ (',' :: ' ' :: (natToChars s ++ ('%' :: ',' :: ' ' ::
        (natToChars l ++ ['%', ')']))))) := by
    simp [mkHslNat]
  have span1 := takeWhile_append_stop digitCharB (natToChars h)
    (',' :: ' ' :: (natToChars s ++ ('%' :: ',' :: ' ' ::
      (natToChars l ++ ['%', ')']))))
    (natToChars_all_digits h) (by intro c hc; cases hc; decide)
  have span2 := takeWhile_append_stop digitCharB (natToChars s)
    ('%' :: ',' :: ' ' :: (natToChars l ++ ['%', ')']))
    (natToChars_all_digits s) (by intro c hc; cases hc; decide)
  have span3 := takeWhile_append_stop digitCharB (natToChars l) ['%', ')']
    (natToChars_all_digits l) (by intro c hc; cases hc; decide)
  have hdw2 : List.dropWhile jsWhitespace
      (' ' :: (natToChars s ++ ('%' :: ',' :: ' ' ::
        (natToChars l ++ ['%', ')'])))) =
      natToChars s ++ ('%' :: ',' :: ' ' :: (natToChars l ++ ['%', ')'])) := by
    rw [List.dropWhile_cons_of_pos (by decide)]
    cases hs : natToChars s with
    | nil => exact absurd hs (natToChars_ne_nil s)
    | cons c t =>
      have hd : digitCharB c = true := by
        have := natToChars_all_digits s
        rw [hs] at this
        exact this c (List.mem_cons_self _ _)
      simp [List.dropWhile_cons, digitCharB_not_ws c hd]
  have hdw3 : List.dropWhile jsWhitespace
      (' ' :: (natToChars l ++ ['%', ')'])) =
      natToChars l ++ ['%', ')'] := by
    rw [List.dropWhile_cons_of_pos (by decide)]
    cases hs : natToChars l with
    | nil => exact absurd hs (natToChars_ne_nil l)
    | cons c t =>
      have hd : digitCharB c = true := by
        have := natToChars_all_digits l
        rw [hs] at this
        exact this c (List.mem_cons_self _ _)
      simp [List.dropWhile_cons, digitCharB_not_ws c hd]
  rw [hshape]
  unfold matchHslAt
  rw [stripLit_append]
  simp only [span1.1, span1.2]
  simp only [natToChars_not_isEmpty, Bool.false_eq_true, if_false, hdw2,
    span2.1, span2.2]
  have hstrip2 : stripLit "%,".data ('%' :: ',' :: ' ' ::
      (natToChars l ++ ['%', ')'])) =
      some (' ' :: (natToChars l ++ ['%', ')'])) := by
    simp [stripLit]
  simp only [natToChars_not_isEmpty, Bool.false_eq_true, if_false, hstrip2,
    hdw3, span3.1, span3.2]
  have hstrip3 : stripLit "%)".data (['%', ')'] : List Char) = some [] := by
    simp [stripLit]
  simp only [Bool.false_eq_true, if_false, hstrip3,
    digitsVal_natToChars]

theorem findHsl_mkHslNat (h s l : ℕ) :
    findHsl (mkHslNat h s l) = some (h, s, l) := by
  have hshape : mkHslNat h s l = 'h' :: ('s' :: 'l' :: '(' ::
      (natToChars h ++ (',' :: ' ' :: (natToChars s ++ ('%' :: ',' :: ' ' ::
        (natToChars l ++ ['%', ')'])))))) := by
    simp [mkHslNat]
  rw [hshape]
  rw [show findHsl ('h' :: ('s' :: 'l' :: '(' ::
      (natToChars h ++ (',' :: ' ' :: (natToChars s ++ ('%' :: ',' :: ' ' ::
        (natToChars l ++ ['%', ')']))))))) =
      match matchHslAt ('h' :: ('s' :: 'l' :: '(' ::
        (natToChars h ++ (',' :: ' ' :: (natToChars s ++ ('%' :: ',' :: ' ' ::
          (natToChars l ++ ['%', ')'])))))))with
      | some r => some r
      | none => findHsl ('s' :: 'l' :: '(' ::
        (natToChars h ++ (',' :: ' ' :: (natToChars s ++ ('%' :: ',' :: ' ' ::
          (natToChars l ++ ['%', ')'])))))) from rfl]
  have : matchHslAt ('h' :: ('s' :: 'l' :: '(' ::
      (natToChars h ++ (',' :: ' ' :: (natToChars s ++ ('%' :: ',' :: ' ' ::
        (natToChars l ++ ['%', ')']))))))) = some (h, s, l) := by
    rw [← hshape]
    exact matchHslAt_mkHslNat h s l
  rw [this]

theorem hueWrap_intCast (x : ℤ) :
    hueWrap ((x : ℤ) : ℚ) = ((intHueWrap x : ℤ) : ℚ) := by
  unfold hueWrap intHueWrap
  have hlt : (((x : ℤ) : ℚ) < 0) ↔ x < 0 := by exact_mod_cast Iff.rfl
  by_cases h0 : x < 0
  · rw [if_pos (hlt.2 h0), if_pos h0]
    have hle : ((360 : ℚ) ≤ (x : ℚ) + 360) ↔ (360 : ℤ) ≤ x + 360 := by
      exact_mod_cast Iff.rfl
    by_cases h1 : (360 : ℤ) ≤ x + 360
    · rw [if_pos (hle.2 h1), if_pos h1]
      push_cast
      ring
    · rw [if_neg (fun hc => h1 (hle.1 hc)), if_neg h1]
      push_cast
      ring
  · rw [if_neg (fun hc => h0 (hlt.1 hc)), if_neg h0]
    have hle : ((360 : ℚ) ≤ (x : ℚ)) ↔ (360 : ℤ) ≤ x := by
      exact_mod_cast Iff.rfl
    by_cases h1 : (360 : ℤ) ≤ x
    · rw [if_pos (hle.2 h1), if_pos h1]
      push_cast
      ring
    · rw [if_neg (fun hc => h1 (hle.1 hc)), if_neg h1]

theorem jsRound_intCast (z : ℤ) : jsRound ((z : ℤ) : ℚ) = z := by
  unfold jsRound
  rw [Int.floor_int_add]
  norm_num

/-- The normalized difference lies on the shortest arc and is congruent to
the raw difference modulo a full turn. -/
theorem normalizeHueDiff_spec (d : ℤ) (h1 : -360 < d) (h2 : d < 360) :
    -180 ≤ normalizeHueDiff d ∧ normalizeHueDiff d ≤ 180 ∧
      (normalizeHueDiff d) % 360 = d % 360 := by
  unfold normalizeHueDiff
  split_ifs <;> omega

/-- Wrapping `h1 + normalizeHueDiff (h2 - h1)` recovers `h2` exactly when
both hues lie in `[0, 360)`. -/
theorem intHueWrap_add_normalize (h1 h2 : ℤ) (hh1 : 0 ≤ h1) (hl1 : h1 < 360)
    (hh2 : 0 ≤ h2) (hl2 : h2 < 360) :
    intHueWrap (h1 + normalizeHueDiff (h2 - h1)) = h2 := by
  unfold intHueWrap normalizeHueDiff
  split_ifs <;> omega

theorem mkHslOut_natCast (h s l : ℕ) :
    mkHslOut (h : ℤ) (s : ℤ) (l : ℤ) = mkHslNat h s l := by
  unfold mkHslOut mkHslNat intToChars
  rw [if_neg (by omega : ¬ ((h : ℤ) < 0)), if_neg (by omega : ¬ ((s : ℤ) < 0)),
    if_neg (by omega : ¬ ((l : ℤ) < 0)), Int.toNat_natCast, Int.toNat_natCast,
    Int.toNat_natCast]

theorem intHueWrap_of_range (h : ℤ) (h0 : 0 ≤ h) (h1 : h < 360) :
    intHueWrap h = h := by
  unfold intHueWrap
  split_ifs <;> omega

theorem mk_data_eq (A : String) : String.mk A.data = A := by
  cases A
  rfl

theorem interpolateColor_self (A : String) (h s l : ℕ)
    (hwf : WellFormedHsl A h s l) (t : ℚ) : interpolateColor A A t = A := by
  obtain ⟨hdata, hlt⟩ := hwf
  unfold interpolateColor
  rw [hdata, findHsl_mkHslNat]
  dsimp only
  have hd : normalizeHueDiff ((h : ℤ) - (h : ℤ)) = 0 := by
    unfold normalizeHueDiff
    norm_num
  rw [hd]
  have h1 : ((h : ℕ) : ℚ) + ((0 : ℤ) : ℚ) * t = (((h : ℕ) : ℤ) : ℚ) := by
    push_cast
    ring
  have h2 : ((s : ℕ) : ℚ) + (((s : ℕ) : ℚ) - ((s : ℕ) : ℚ)) * t =
      (((s : ℕ) : ℤ) : ℚ) := by
    push_cast
    ring
  have h3 : ((l : ℕ) : ℚ) + (((l : ℕ) : ℚ) - ((l : ℕ) : ℚ)) * t =
      (((l : ℕ) : ℤ) : ℚ) := by
    push_cast
    ring
  rw [h1, h2, h3, hueWrap_intCast,
    intHueWrap_of_range _ (by omega) (by exact_mod_cast hlt),
    jsRound_intCast, jsRound_intCast, jsRound_intCast, mkHslOut_natCast,
    ← hdata, mk_data_eq]

theorem interpolateColor_zero (A B : String) (hA sA lA hB sB lB : ℕ)
    (hwa : WellFormedHsl A hA sA lA) (hwb : WellFormedHsl B hB sB lB) :
    interpolateColor A B 0 = A := by
  obtain ⟨hdataA, hltA⟩ := hwa
  obtain ⟨hdataB, _⟩ := hwb
  unfold interpolateColor
  rw [hdataA, hdataB, findHsl_mkHslNat, findHsl_mkHslNat]
  dsimp only
  have h1 : ((hA : ℕ) : ℚ) +
      ((normalizeHueDiff ((hB : ℤ) - (hA : ℤ)) : ℤ) : ℚ) * 0 =
      (((hA : ℕ) : ℤ) : ℚ) := by
    push_cast
    ring
  have h2 : ((sA : ℕ) : ℚ) + (((sB : ℕ) : ℚ) - ((sA : ℕ) : ℚ)) * 0 =
      (((sA : ℕ) : ℤ) : ℚ) := by
    push_cast
    ring
  have h3 : ((lA : ℕ) : ℚ) + (((lB : ℕ) : ℚ) - ((lA : ℕ) : ℚ)) * 0 =
      (((lA : ℕ) : ℤ) : ℚ) := by
    push_cast
    ring
  rw [h1, h2, h3, hueWrap_intCast,
    intHueWrap_of_range _ (by omega) (by exact_mod_cast hltA),
    jsRound_intCast, jsRound_intCast, jsRound_intCast, mkHslOut_natCast,
    ← hdataA, mk_data_eq]

theorem interpolateColor_one (A B : String) (hA sA lA hB sB lB : ℕ)
    (hwa : WellFormedHsl A hA sA lA) (hwb : WellFormedHsl B hB sB lB) :
    interpolateColor A B 1 = B := by
  obtain ⟨hdataA, hltA⟩ := hwa
  obtain ⟨hdataB, hltB⟩ := hwb
  unfold interpolateColor
  rw [hdataA, hdataB, findHsl_mkHslNat, findHsl_mkHslNat]
  dsimp only
  have h1 : ((hA : ℕ) : ℚ) +
      ((normalizeHueDiff ((hB : ℤ) - (hA : ℤ)) : ℤ) : ℚ) * 1 =
      ((((hA : ℤ) + normalizeHueDiff ((hB : ℤ) - (hA : ℤ))) : ℤ) : ℚ) := by
    push_cast
    ring
  have h2 : ((sA : ℕ) : ℚ) + (((sB : ℕ) : ℚ) - ((sA : ℕ) : ℚ)) * 1 =
      (((sB : ℕ) : ℤ) : ℚ) := by
    push_cast
    ring
  have h3 : ((lA : ℕ) : ℚ) + (((lB : ℕ) : ℚ) - ((lA : ℕ) : ℚ)) * 1 =
      (((lB : ℕ) : ℤ) : ℚ) := by
    push_cast
    ring
  rw [h1, h2, h3, hueWrap_intCast,
    intHueWrap_add_normalize _ _ (by omega) (by exact_mod_cast hltA)
      (by omega) (by exact_mod_cast hltB),
    jsRound_intCast, jsRound_intCast, jsRound_intCast, mkHslOut_natCast,
    ← hdataB, mk_data_eq]

theorem findIdx?_some_bound {α : Type} (p : α → Bool) :
    ∀ (l : List α) (j i : ℕ), List.findIdx? p l j = some i →
      j ≤ i ∧ i < j + l.length := by
  intro l
  induction l with
  | nil => intro j i h; simp [List.findIdx?] at h
  | cons a t ih =>
    intro j i h
    rw [List.findIdx?_cons] at h
    by_cases hp : p a = true
    · rw [if_pos hp] at h
      injection h with h
      subst h
      simp
    · rw [if_neg hp] at h
      obtain ⟨h1, h2⟩ := ih (j + 1) i h
      constructor
      · omega
      · simp only [List.length_cons]
        omega

/-! ## Claim theorems -/

/-- C1 (amended): for a drag release while dragging, a committed release
with `|offset|` strictly above the 100px threshold toward an existing
adjacent record changes the index by exactly ±1 and never more, and the
settled drag offset is 0; a release with `|offset|` at or below the
threshold leaves the committed app state unchanged and settles back to
offset 0 in the idle state.  (The source compares with strict `>`, so a
release at exactly the threshold snaps back.) -/
theorem handleEnd_release_spec (app : AppState) (card : CardState) (sd : ℚ)
    (hd : card.isDragging = true) :
    (dragThreshold < |card.dragOffset| → card.dragOffset < 0 →
      hasNext app = true →
      (releaseSettled app card sd).1.currentIndex = app.currentIndex + 1 ∧
      (releaseSettled app card sd).2.dragOffset = 0) ∧
    (dragThreshold < |card.dragOffset| → 0 < card.dragOffset →
      hasPrev app = true →
      (releaseSettled app card sd).1.currentIndex = app.currentIndex - 1 ∧
      0 < app.currentIndex ∧
      (releaseSettled app card sd).2.dragOffset = 0) ∧
    (|card.dragOffset| ≤ dragThreshold →
      (releaseSettled app card sd).1 = app ∧
      (releaseSettled app card sd).2.dragOffset = 0 ∧
      (releaseSettled app card sd).2.isTransitioning = false ∧
      (releaseSettled app card sd).2.isDragging = false) := by
  refine ⟨?_, ?_, ?_⟩
  · intro h1 h2 h3
    have hn : app.currentIndex < app.questions.length - 1 :=
      of_decide_eq_true h3
    unfold releaseSettled handleEnd
    rw [if_pos hd, if_pos h1, if_pos ⟨h2, h3⟩]
    dsimp only
    unfold nextQuestion settleCard
    rw [if_pos hn]
    exact ⟨rfl, rfl⟩
  · intro h1 h2 h3
    have hp : 0 < app.currentIndex := of_decide_eq_true h3
    have h2' : ¬ (card.dragOffset < 0 ∧ hasNext app = true) := by
      intro hc
      exact absurd hc.1 (not_lt.2 (le_of_lt h2))
    unfold releaseSettled handleEnd
    rw [if_pos hd, if_pos h1, if_neg h2', if_pos ⟨h2, h3⟩]
    dsimp only
    unfold prevQuestion settleCard
    rw [if_pos hp]
    exact ⟨rfl, hp, rfl⟩
  · intro h1
    unfold releaseSettled handleEnd
    rw [if_pos hd, if_neg (not_lt.2 h1)]
    dsimp only
    exact ⟨rfl, rfl, rfl, rfl⟩

/-- Witness for C1: a 150px left release on a two-question sequence at
index 0 commits to index 1 with the offset settled to 0. -/
theorem handleEnd_release_spec_witness :
    (releaseSettled
      ⟨[⟨"Q1", "Q1", "party"⟩, ⟨"Q2", "Q2", "family"⟩], 0, 0, "", true⟩
      ⟨true, -150, false, none, 0⟩ 300).1.currentIndex = 0 + 1 ∧
    (releaseSettled
      ⟨[⟨"Q1", "Q1", "party"⟩, ⟨"Q2", "Q2", "family"⟩], 0, 0, "", true⟩
      ⟨true, -150, false, none, 0⟩ 300).2.dragOffset = 0 :=
  (handleEnd_release_spec _ _ 300 rfl).1 (by decide) (by decide) (by decide)

/-- C1 counterexample to the claim as stated: a release at exactly the
threshold (`|offset| = 100 ≥ threshold`) with a next record available does
not commit — the index stays 0 — because the source uses a strict
comparison. -/
theorem release_at_threshold_counterexample :
    dragThreshold ≤ |(-100 : ℚ)| ∧
    hasNext ⟨[⟨"Q1", "Q1", "party"⟩, ⟨"Q2", "Q2", "family"⟩],
      0, 0, "", true⟩ = true ∧
    (releaseSettled
      ⟨[⟨"Q1", "Q1", "party"⟩, ⟨"Q2", "Q2", "family"⟩], 0, 0, "", true⟩
      ⟨true, -100, false, none, 0⟩ 300).1.currentIndex = 0 ∧
    (releaseSettled
      ⟨[⟨"Q1", "Q1", "party"⟩, ⟨"Q2", "Q2", "family"⟩], 0, 0, "", true⟩
      ⟨true, -100, false, none, 0⟩ 300).2.dragOffset = 0 := by
  refine ⟨by decide, by decide, by decide, by decide⟩

/-- C2: starting from a valid index, any sequence of
`nextQuestion`/`prevQuestion` calls keeps the index inside
`[0, length-1]` and the sequence unchanged; advancing at the last record
or retreating at the first is a silent no-op. -/
theorem nav_index_invariant (s : AppState) (ms : List NavMove)
    (h : s.currentIndex < s.questions.length) :
    (applyMoves s ms).currentIndex < s.questions.length ∧
    (applyMoves s ms).questions = s.questions ∧
    (s.currentIndex = s.questions.length - 1 → nextQuestion s = s) ∧
    (s.currentIndex = 0 → prevQuestion s = s) := by
  have step : ∀ (m : NavMove) (st : AppState),
      st.questions = s.questions → st.currentIndex < s.questions.length →
      (applyMove st m).questions = s.questions ∧
      (applyMove st m).currentIndex < s.questions.length := by
    intro m st hq hi
    cases m with
    | next =>
      unfold applyMove nextQuestion
      dsimp only
      by_cases hc : st.currentIndex < st.questions.length - 1
      · rw [if_pos hc]
        rw [hq] at hc
        refine ⟨hq, ?_⟩
        show st.currentIndex + 1 < s.questions.length
        omega
      · rw [if_neg hc]
        exact ⟨hq, hi⟩
    | prev =>
      unfold applyMove prevQuestion
      dsimp only
      by_cases hc : 0 < st.currentIndex
      · rw [if_pos hc]
        refine ⟨hq, ?_⟩
        show st.currentIndex - 1 < s.questions.length
        omega
      · rw [if_neg hc]
        exact ⟨hq, hi⟩
  have main : ∀ (l : List NavMove) (st : AppState),
      st.questions = s.questions → st.currentIndex < s.questions.length →
      (applyMoves st l).questions = s.questions ∧
      (applyMoves st l).currentIndex < s.questions.length := by
    intro l
    induction l with
    | nil => intro st hq hi; exact ⟨hq, hi⟩
    | cons m t ih =>
      intro st hq hi
      have hstep := step m st hq hi
      exact ih (applyMove st m) hstep.1 hstep.2
  obtain ⟨hq, hi⟩ := main ms s rfl h
  refine ⟨hi, hq, ?_, ?_⟩
  · intro hlast
    unfold nextQuestion
    rw [if_neg (by omega)]
  · intro hfirst
    unfold prevQuestion
    rw [if_neg (by omega)]

/-- Witness for C2: on a one-question sequence, next-next-prev keeps the
index at 0 and both boundary moves are no-ops. -/
theorem nav_index_invariant_witness :
    (applyMoves ⟨[⟨"Q1", "Q1", "party"⟩], 0, 0, "", true⟩
      [.next, .next, .prev]).currentIndex < 1 ∧
    nextQuestion ⟨[⟨"Q1", "Q1", "party"⟩], 0, 0, "", true⟩ =
      ⟨[⟨"Q1", "Q1", "party"⟩], 0, 0, "", true⟩ :=
  ⟨(nav_index_invariant ⟨[⟨"Q1", "Q1", "party"⟩], 0, 0, "", true⟩
      [.next, .next, .prev] (by decide)).1,
    (nav_index_invariant ⟨[⟨"Q1", "Q1", "party"⟩], 0, 0, "", true⟩
      [.next, .next, .prev] (by decide)).2.2.1 (by decide)⟩

/-- C3 (amended): while a transition is in flight, keyboard arrows and
edge taps are ignored — the card state is unchanged and no commit is
scheduled — but a pointer gesture start is NOT ignored: `handleStart`
unconditionally begins a new drag even while `isTransitioning`. -/
theorem transition_guard_spec (s : CardState) (k : Key) (hp hn : Bool)
    (sd x : ℚ) (ht : s.isTransitioning = true) :
    handleKeyDown s k hp hn sd = (s, none) ∧
    leftEdgeClick s hp sd = (s, none) ∧
    rightEdgeClick s hn sd = (s, none) ∧
    (handleStart s x).isDragging = true ∧
    (handleStart s x).isTransitioning = true := by
  refine ⟨?_, ?_, ?_, rfl, ht⟩
  · unfold handleKeyDown
    rw [if_pos ht]
  · unfold leftEdgeClick
    cases hp with
    | false => rw [if_pos rfl]
    | true =>
      rw [if_neg (by simp), if_pos ht]
  · unfold rightEdgeClick
    cases hn with
    | false => rw [if_pos rfl]
    | true =>
      rw [if_neg (by simp), if_pos ht]

/-- Witness for C3: a concrete transitioning card ignores ArrowRight and
both edge taps, while a pointer start still begins a drag. -/
theorem transition_guard_spec_witness :
    handleKeyDown ⟨false, 0, true, some .left, 0⟩ .arrowRight true true 300 =
      (⟨false, 0, true, some .left, 0⟩, none) ∧
    leftEdgeClick ⟨false, 0, true, some .left, 0⟩ true 300 =
      (⟨false, 0, true, some .left, 0⟩, none) ∧
    rightEdgeClick ⟨false, 0, true, some .left, 0⟩ true 300 =
      (⟨false, 0, true, some .left, 0⟩, none) ∧
    (handleStart ⟨false, 0, true, some .left, 0⟩ 7).isDragging = true ∧
    (handleStart ⟨false, 0, true, some .left, 0⟩ 7).isTransitioning = true :=
  transition_guard_spec ⟨false, 0, true, some .left, 0⟩ .arrowRight true true
    300 7 rfl

/-- C3 counterexample to the claim as stated: with a transition in flight,
a new pointer gesture start is not ignored — `handleStart` sets
`isDragging` and so a new drag begins before the machine returns to
idle. -/
theorem reentrancy_counterexample :
    (⟨false, 0, true, some .left, 0⟩ : CardState).isTransitioning = true ∧
    (handleStart ⟨false, 0, true, some .left, 0⟩ 7).isDragging = true ∧
    (handleStart ⟨false, 0, true, some .left, 0⟩ 7).isTransitioning = true :=
  ⟨rfl, rfl, rfl⟩

/-- C4 (amended): the drag progress is the clamp of `|offset|/300` to
`[0,1]`; the active card's scale is `1 - 0.2·progress`, always within
`[0.8, 1]`; the rotation is `(offset/300)·5 = direction·5·(|offset|/300)`
degrees, which equals `direction·5·progress` and stays within ±5° whenever
`|offset| ≤ 300` — but it is not clamped, so larger offsets exceed the
5° maximum. -/
theorem dragTransform_spec (offset : ℚ) :
    getDragProgress offset = max 0 (min (|offset| / 300) 1) ∧
    currentScale offset = 1 - getDragProgress offset * 0.2 ∧
    4 / 5 ≤ currentScale offset ∧ currentScale offset ≤ 1 ∧
    currentRotation offset = (dragDirection offset : ℚ) * 5 * (|offset| / 300) ∧
    (|offset| ≤ 300 →
      currentRotation offset =
        (dragDirection offset : ℚ) * 5 * getDragProgress offset ∧
      |currentRotation offset| ≤ 5) := by
  have hnn : (0 : ℚ) ≤ |offset| / 300 := by positivity
  have hp0 : 0 ≤ getDragProgress offset := le_min hnn (by norm_num)
  have hp1 : getDragProgress offset ≤ 1 := min_le_right _ _
  have hrot : currentRotation offset =
      (dragDirection offset : ℚ) * 5 * (|offset| / 300) := by
    unfold currentRotation dragDirection
    by_cases hneg : offset < 0
    · rw [if_pos hneg, abs_of_neg hneg]
      push_cast
      ring
    · rw [if_neg hneg, abs_of_nonneg (not_lt.1 hneg)]
      push_cast
      ring
  refine ⟨(max_eq_right hp0).symm, rfl, ?_, ?_, hrot, ?_⟩
  · unfold currentScale
    have : getDragProgress offset * 0.2 ≤ 0.2 := by
      nlinarith
    linarith
  · unfold currentScale
    have : 0 ≤ getDragProgress offset * 0.2 := by positivity
    linarith
  · intro hle
    have hdiv1 : |offset| / 300 ≤ 1 := by
      rw [div_le_one (by norm_num)]
      exact hle
    have hprog : getDragProgress offset = |offset| / 300 :=
      min_eq_left hdiv1
    constructor
    · rw [hrot, hprog]
    · rw [hrot]
      have habs : |(dragDirection offset : ℚ) * 5 * (|offset| / 300)| =
          5 * (|offset| / 300) := by
        rw [abs_mul, abs_mul]
        have hd : |(dragDirection offset : ℚ)| = 1 := by
          unfold dragDirection
          by_cases hneg : offset < 0
          · rw [if_pos hneg]
            norm_num
          · rw [if_neg hneg]
            norm_num
        rw [hd, abs_of_nonneg hnn, abs_of_nonneg (by norm_num : (0:ℚ) ≤ 5)]
        ring
      rw [habs]
      nlinarith

/-- Witness for C4: at a 150px offset the rotation is direction·5·progress
and within the 5° bound. -/
theorem dragTransform_spec_witness :
    currentRotation 150 = (dragDirection 150 : ℚ) * 5 * getDragProgress 150 ∧
    |currentRotation 150| ≤ 5 :=
  (dragTransform_spec 150).2.2.2.2.2 (by decide)

/-- C4 counterexample to the claim as stated: at a 600px offset the active
card's rotation is 10°, exceeding the 5° maximum angle — the source does
not clamp `(totalOffset / 300) * 5`. -/
theorem rotation_unclamped_counterexample :
    currentRotation 600 = 10 ∧ ¬ (|currentRotation 600| ≤ 5) := by
  constructor
  · norm_num [currentRotation]
  · norm_num [currentRotation]

/-- C5: `applyGermanHyphenation` never modifies an excluded word: every
token of the whitespace-preserving split that is excluded by
`shouldExcludeWord` (shorter than 6 characters, all-uppercase, containing
a digit or symbol, or already hyphenated) or whose measured width fits
within `containerWidth - bufferPx` is mapped to itself, and the output is
exactly the join of the mapped tokens. -/
theorem hyphenation_excluded_unchanged (measure : List Char → FontSpec → ℚ)
    (hyph : List Char → List (List Char)) (o : HyphenationOptionsExt)
    (text w : List Char) (_hmem : w ∈ splitRuns text)
    (hcond : shouldExcludeWord w = true ∨
      measure w (fontOf o) ≤ availableWidth o) :
    processWord measure hyph (availableWidth o) (fontOf o) w = w ∧
    applyGermanHyphenation measure hyph text o =
      ((splitRuns text).map
        (processWord measure hyph (availableWidth o) (fontOf o))).flatten :=
  ⟨processWord_eq_self measure hyph _ _ w (Or.inr hcond), rfl⟩

/-- Witness for C5: the short word "Hallo" (excluded, length 5 < 6) in
"Hallo Welt" maps to itself. -/
theorem hyphenation_excluded_unchanged_witness :
    shouldExcludeWord "Hallo".data = true ∧
    processWord zeroMeasure hypherDe (availableWidth fitOptions)
      (fontOf fitOptions) "Hallo".data = "Hallo".data :=
  ⟨by decide,
    (hyphenation_excluded_unchanged zeroMeasure hypherDe fitOptions
      "Hallo Welt".data "Hallo".data (by decide) (Or.inl (by decide))).1⟩

/-- C6: `applyGermanHyphenation` is idempotent on text that already fits:
when every word token's measured width is within the available width,
applying twice equals applying once (in fact the application is the
identity). -/
theorem hyphenation_idempotent_when_fitting
    (measure : List Char → FontSpec → ℚ)
    (hyph : List Char → List (List Char)) (o : HyphenationOptionsExt)
    (text : List Char)
    (hfit : ∀ w ∈ splitRuns text, (!w.isEmpty && w.all jsWhitespace) = true ∨
      measure w (fontOf o) ≤ availableWidth o) :
    applyGermanHyphenation measure hyph
      (applyGermanHyphenation measure hyph text o) o =
      applyGermanHyphenation measure hyph text o := by
  have h1 : applyGermanHyphenation measure hyph text o = text :=
    applyGermanHyphenation_eq_self measure hyph o text
      (fun w hw => (hfit w hw).elim Or.inl (fun h => Or.inr (Or.inr h)))
  rw [h1]
  exact h1

/-- Witness for C6: with a zero-width measurer and a 300px container with
no buffer, "hallo welt" fits and hyphenation is idempotent on it. -/
theorem hyphenation_idempotent_when_fitting_witness :
    applyGermanHyphenation zeroMeasure hypherDe
      (applyGermanHyphenation zeroMeasure hypherDe "hallo welt".data
        fitOptions) fitOptions =
      applyGermanHyphenation zeroMeasure hypherDe "hallo welt".data
        fitOptions :=
  hyphenation_idempotent_when_fitting zeroMeasure hypherDe fitOptions
    "hallo welt".data
    (fun w _ => Or.inr (by
      show (0 : ℚ) ≤ availableWidth fitOptions
      rw [show availableWidth fitOptions = 300 - 0 from rfl, sub_zero]
      decide))

/-- C7 (amended): when text measurement is unavailable (measured width 0
for every word), `applyGermanHyphenation` is a no-op passthrough for every
input text and every options value whose available width
(`containerWidth - bufferPx`) is nonnegative; being a total function, it
does not throw.  (When `containerWidth < bufferPx`, the zero width does
not fit the negative available width and long words are still handed to
the hyphenator.) -/
theorem hyphenation_zero_measure_passthrough
    (hyph : List Char → List (List Char)) (o : HyphenationOptionsExt)
    (text : List Char) (h0 : (0 : ℚ) ≤ availableWidth o) :
    applyGermanHyphenation (fun _ _ => 0) hyph text o = text :=
  applyGermanHyphenation_eq_self (fun _ _ => 0) hyph o text
    (fun _ _ => Or.inr (Or.inr h0))

/-- Witness for C7: with the zero measurer and a 300px container with no
buffer, "Selbstverwirklichung kostet" passes through unchanged. -/
theorem hyphenation_zero_measure_passthrough_witness :
    (0 : ℚ) ≤ availableWidth fitOptions ∧
    applyGermanHyphenation (fun _ _ => 0) hypherDe
      "Selbstverwirklichung kostet".data fitOptions =
      "Selbstverwirklichung kostet".data :=
  ⟨by rw [show availableWidth fitOptions = 300 - 0 from rfl, sub_zero]
      decide,
    hyphenation_zero_measure_passthrough hypherDe fitOptions
      "Selbstverwirklichung kostet".data
      (by rw [show availableWidth fitOptions = 300 - 0 from rfl, sub_zero]
          decide)⟩

/-- C7 counterexample to the claim as stated: with measurement unavailable
(measured width 0) but a zero-width container and the default 16px buffer,
the available width is negative, 0 does not fit, and the long word is
still split with soft hyphens — the function is not a passthrough for
every options value. -/
theorem hyphenation_negative_width_counterexample :
    availableWidth zeroWidthOptions < 0 ∧
    applyGermanHyphenation (fun _ _ => 0) hypherDe
      "Selbstverwirklichung".data zeroWidthOptions ≠
      "Selbstverwirklichung".data := by
  have ha : availableWidth zeroWidthOptions = -16 := by
    norm_num [availableWidth, zeroWidthOptions]
  constructor
  · rw [ha]
    norm_num
  · unfold applyGermanHyphenation
    rw [ha]
    decide

/-- C8: the color interpolation satisfies the identity laws on well-formed
hsl strings — `interpolate(A, A, t) = A` for every factor `t`,
`interpolate(A, B, 0) = A`, `interpolate(A, B, 1) = B` — and the hue is
blended along the shortest arc: the normalized hue difference lies in
`[-180, 180]` and is congruent to the raw difference modulo 360. -/
theorem interpolateColor_identity (A B : String) (hA sA lA hB sB lB : ℕ)
    (t : ℚ) (hwa : WellFormedHsl A hA sA lA) (hwb : WellFormedHsl B hB sB lB) :
    interpolateColor A A t = A ∧
    interpolateColor A B 0 = A ∧
    interpolateColor A B 1 = B ∧
    -180 ≤ normalizeHueDiff ((hB : ℤ) - (hA : ℤ)) ∧
    normalizeHueDiff ((hB : ℤ) - (hA : ℤ)) ≤ 180 ∧
    normalizeHueDiff ((hB : ℤ) - (hA : ℤ)) % 360 = ((hB : ℤ) - (hA : ℤ)) % 360 := by
  have hspec := normalizeHueDiff_spec ((hB : ℤ) - (hA : ℤ))
    (by have := hwa.2; omega) (by have := hwb.2; omega)
  exact ⟨interpolateColor_self A hA sA lA hwa t,
    interpolateColor_zero A B hA sA lA hB sB lB hwa hwb,
    interpolateColor_one A B hA sA lA hB sB lB hwa hwb,
    hspec.1, hspec.2.1, hspec.2.2⟩

/-- Witness for C8: concrete identity-law instances across the 350°/10°
hue wrap-around. -/
theorem interpolateColor_identity_witness :
    interpolateColor "hsl(350, 50%, 40%)" "hsl(350, 50%, 40%)" (1 / 2) =
      "hsl(350, 50%, 40%)" ∧
    interpolateColor "hsl(350, 50%, 40%)" "hsl(10, 20%, 30%)" 0 =
      "hsl(350, 50%, 40%)" ∧
    interpolateColor "hsl(350, 50%, 40%)" "hsl(10, 20%, 30%)" 1 =
      "hsl(10, 20%, 30%)" :=
  ⟨(interpolateColor_identity "hsl(350, 50%, 40%)" "hsl(10, 20%, 30%)"
      350 50 40 10 20 30 (1 / 2) ⟨by decide, by decide⟩
      ⟨by decide, by decide⟩).1,
    (interpolateColor_identity "hsl(350, 50%, 40%)" "hsl(10, 20%, 30%)"
      350 50 40 10 20 30 (1 / 2) ⟨by decide, by decide⟩
      ⟨by decide, by decide⟩).2.1,
    (interpolateColor_identity "hsl(350, 50%, 40%)" "hsl(10, 20%, 30%)"
      350 50 40 10 20 30 (1 / 2) ⟨by decide, by decide⟩
      ⟨by decide, by decide⟩).2.2.1⟩

/-- C10: when either input fails to match the integer-valued pattern
`hsl(h, s%, l%)`, `interpolateColor` returns the first color unchanged for
every interpolation factor (and, being a total function, does not
throw). -/
theorem interpolateColor_mismatch (c1 c2 : String) (t : ℚ)
    (h : findHsl c1.data = none ∨ findHsl c2.data = none) :
    interpolateColor c1 c2 t = c1 := by
  unfold interpolateColor
  rcases h with h | h
  · rw [h]
  · rw [h]
    rcases hf : findHsl c1.data with _ | ⟨⟨x, y, z⟩⟩ <;> rfl

/-- C9: deep-link initialization — once applied it never fires again; it
does nothing while the question sequence is empty; with a non-empty
sequence and an unapplied flag it marks itself applied, keeps the
sequence, uses the parsed numeric value of `q` when in range, otherwise
the index of the first question whose trimmed text equals the trimmed
parameter, and leaves the index unchanged when neither form matches or
when no parameter is given. -/
theorem deepLink_spec (s : AppState) (qp : Option String) :
    (s.initialIndexApplied = true → applyDeepLink s qp = s) ∧
    (s.questions.length = 0 → applyDeepLink s qp = s) ∧
    (s.initialIndexApplied = false → s.questions.length ≠ 0 →
      (applyDeepLink s qp).initialIndexApplied = true ∧
      (applyDeepLink s qp).questions = s.questions ∧
      (∀ str, qp = some str → str ≠ "" →
        (∀ n : ℤ, parseIntJS str = some n → 0 ≤ n →
          n < (s.questions.length : ℤ) →
          (applyDeepLink s qp).currentIndex = n.toNat) ∧
        ((parseIntJS str = none ∨
            (∀ n : ℤ, parseIntJS str = some n →
              n < 0 ∨ (s.questions.length : ℤ) ≤ n)) →
          (∀ i : ℕ,
            s.questions.findIdx? (fun q => trimJS q.question == trimJS str) =
              some i →
            (applyDeepLink s qp).currentIndex = i) ∧
          (s.questions.findIdx? (fun q => trimJS q.question == trimJS str) =
              none →
            (applyDeepLink s qp).currentIndex = s.currentIndex))) ∧
      ((qp = none ∨ qp = some "") →
        (applyDeepLink s qp).currentIndex = s.currentIndex)) := by
  refine ⟨?_, ?_, ?_⟩
  · intro happ
    unfold applyDeepLink
    rw [if_pos happ]
  · intro hlen
    unfold applyDeepLink
    by_cases happ : s.initialIndexApplied = true
    · rw [if_pos happ]
    · rw [if_neg happ, if_pos hlen]
  · intro hap hlen
    have hnapp : ¬ (s.initialIndexApplied = true) := by
      rw [hap]
      exact Bool.false_ne_true
    refine ⟨?_, ?_, ?_, ?_⟩
    · unfold applyDeepLink
      rw [if_neg hnapp, if_neg hlen]
      cases qp with
      | none => rfl
      | some str =>
        dsimp only
        by_cases hqp : str = ""
        · rw [if_pos hqp]
        · rw [if_neg hqp]
          split <;> rfl
    · unfold applyDeepLink
      rw [if_neg hnapp, if_neg hlen]
      cases qp with
      | none => rfl
      | some str =>
        dsimp only
        by_cases hqp : str = ""
        · rw [if_pos hqp]
        · rw [if_neg hqp]
          split <;> rfl
    · intro str hqp hne
      subst hqp
      constructor
      · intro n hpn h0 hlt
        unfold applyDeepLink
        rw [if_neg hnapp, if_neg hlen]
        dsimp only
        rw [if_neg hne, hpn]
        dsimp only
        rw [if_pos (show (0 : ℤ) ≤ n ∧ n < (s.questions.length : ℤ) from
          ⟨h0, hlt⟩)]
        rw [if_pos (show (0 : ℤ) ≤ n ∧ n < (s.questions.length : ℤ) from
          ⟨h0, hlt⟩)]
      · intro hnum
        constructor
        · intro i hfind
          have hibound : i < s.questions.length := by
            have := findIdx?_some_bound
              (fun q => trimJS q.question == trimJS str) s.questions 0 i hfind
            omega
          have higz : (0 : ℤ) ≤ (i : ℤ) := by omega
          have hilt : (i : ℤ) < (s.questions.length : ℤ) := by
            exact_mod_cast hibound
          unfold applyDeepLink
          rw [if_neg hnapp, if_neg hlen]
          dsimp only
          rw [if_neg hne, hfind]
          rcases hp : parseIntJS str with _ | n
          · dsimp only
            rw [if_pos (show (0 : ℤ) ≤ (i : ℤ) ∧
              (i : ℤ) < (s.questions.length : ℤ) from ⟨higz, hilt⟩)]
            dsimp only
            rw [Int.toNat_natCast]
          · have hout : n < 0 ∨ (s.questions.length : ℤ) ≤ n := by
              rcases hnum with hnone | hall
              · rw [hp] at hnone
                exact absurd hnone (by simp)
              · exact hall n hp
            dsimp only
            rw [if_neg (show ¬ ((0 : ℤ) ≤ n ∧
              n < (s.questions.length : ℤ)) from fun hc => by omega)]
            rw [if_pos (show (0 : ℤ) ≤ (i : ℤ) ∧
              (i : ℤ) < (s.questions.length : ℤ) from ⟨higz, hilt⟩)]
            dsimp only
            rw [Int.toNat_natCast]
        · intro hfind
          unfold applyDeepLink
          rw [if_neg hnapp, if_neg hlen]
          dsimp only
          rw [if_neg hne, hfind]
          rcases hp : parseIntJS str with _ | n
          · dsimp only
            rw [if_neg (show ¬ ((0 : ℤ) ≤ (-1 : ℤ) ∧
              (-1 : ℤ) < (s.questions.length : ℤ)) from fun hc => by omega)]
          · have hout : n < 0 ∨ (s.questions.length : ℤ) ≤ n := by
              rcases hnum with hnone | hall
              · rw [hp] at hnone
                exact absurd hnone (by simp)
              · exact hall n hp
            dsimp only
            rw [if_neg (show ¬ ((0 : ℤ) ≤ n ∧
              n < (s.questions.length : ℤ)) from fun hc => by omega)]
            rw [if_neg (show ¬ ((0 : ℤ) ≤ (-1 : ℤ) ∧
              (-1 : ℤ) < (s.questions.length : ℤ)) from fun hc => by omega)]
    · intro hq
      rcases hq with hq | hq <;> subst hq
      · unfold applyDeepLink
        rw [if_neg hnapp, if_neg hlen]
      · unfold applyDeepLink
        rw [if_neg hnapp, if_neg hlen]
        dsimp only
        rw [if_pos rfl]

/-- Witness for C9 (the spec's scenario): a three-question sequence with
deep link `q=1` initializes the active index to 1 and marks the
initialization applied. -/
theorem deepLink_spec_witness :
    parseIntJS "1" = some 1 ∧
    (applyDeepLink
      ⟨[⟨"Q1", "Q1", "party"⟩, ⟨"Q2", "Q2", "family"⟩, ⟨"Q3", "Q3", "party"⟩],
        0, 0, "", false⟩ (some "1")).currentIndex = (1 : ℤ).toNat ∧
    (applyDeepLink
      ⟨[⟨"Q1", "Q1", "party"⟩, ⟨"Q2", "Q2", "family"⟩, ⟨"Q3", "Q3", "party"⟩],
        0, 0, "", false⟩ (some "1")).initialIndexApplied = true :=
  ⟨by decide,
    ((deepLink_spec
      ⟨[⟨"Q1", "Q1", "party"⟩, ⟨"Q2", "Q2", "family"⟩, ⟨"Q3", "Q3", "party"⟩],
        0, 0, "", false⟩ (some "1")).2.2 rfl (by decide)).2.2.1 "1" rfl
      (by decide) |>.1 1 (by decide) (by decide) (by decide),
    ((deepLink_spec
      ⟨[⟨"Q1", "Q1", "party"⟩, ⟨"Q2", "Q2", "family"⟩, ⟨"Q3", "Q3", "party"⟩],
        0, 0, "", false⟩ (some "1")).2.2 rfl (by decide)).1⟩

/-- Witness for C10: a malformed first color is returned unchanged. -/
theorem interpolateColor_mismatch_witness :
    findHsl ("not a color" : String).data = none ∧
    interpolateColor "not a color" "hsl(10, 20%, 30%)" (1 / 2) =
      "not a color" :=
  ⟨by decide,
    interpolateColor_mismatch "not a color" "hsl(10, 20%, 30%)" (1 / 2)
      (Or.inl (by decide))⟩

end FriendsApp
